import Mathlib

/-!
Verification development for the rosdiscover interpreter
(`src/rosdiscover/interpreter/__init__.py`).

The embedding below is a shallow model of the interpreter module: ROS names
are lists of characters, the Python `set` collections are `Finset`s, the
mutable `NodeContext` object is passed as an explicit record, and operations
that can raise in Python (for example `resolve` on an empty name, which hits
an `IndexError` on `name[0]`) return `Option` or a result paired with an
optional error.  Behaviors (the `Callable[[NodeContext], None]` plugin
functions) are modelled as lists of effect commands interpreted against the
`NodeContext` API, which is the only interface Python behaviors may use.
-/

/-- ROS names are strings; the embedding uses lists of characters so that
resolution can pattern-match on the leading character exactly as the source
indexes `name[0]`. -/
abbrev Name := List Char

/-- Parameter values.  The interpreter source types them as `Any` and never
inspects them; the spec (section 3) describes them as a tagged union of
booleans, numbers, strings, sequences and mappings.  Since no interpreter
operation examines a value, the embedding keeps the nonrecursive leaves of
that union, which is enough for every claim. -/
inductive ParamValue where
  | boolVal : Bool → ParamValue
  | numVal : Int → ParamValue
  | strVal : Name → ParamValue
deriving DecidableEq

/-- Modelled from the spec: `rosdiscover/interpreter/parameter.py` is not in
the source tree, only its import and call sites are.  From section 4.1 of the
spec, a `ParameterServer` is a mapping from fully-qualified names to values
with `get` (with a default, never writing the default back), `set`
(store/overwrite) and membership.  The mapping is modelled as an association
list with at most one entry per key. -/
structure ParameterServer where
  contents : List (Name × ParamValue)
deriving DecidableEq

/-- Association-list lookup used for the parameter store and remapping table. -/
def lookupAssoc {α : Type} : List (Name × α) → Name → Option α
  | [], _ => none
  | (k, v) :: rest, n => if k = n then some v else lookupAssoc rest n

/-- Association-list overwrite-or-append, matching Python dict assignment. -/
def setAssoc {α : Type} : List (Name × α) → Name → α → List (Name × α)
  | [], k, v => [(k, v)]
  | (k2, v2) :: rest, k, v =>
      if k2 = k then (k, v) :: rest else (k2, v2) :: setAssoc rest k v

/-- Modelled from the spec: `get(name, default)` returns the stored value for
the name, or the default if absent; reading never mutates the store. -/
def ParameterServer.get (ps : ParameterServer) (name : Name)
    (default : Option ParamValue) : Option ParamValue :=
  match lookupAssoc ps.contents name with
  | some v => some v
  | none => default

/-- Modelled from the spec: `set(name, value)` stores or overwrites a value
under the name (the `self.__params[key] = value` call sites in the source). -/
def ParameterServer.set (ps : ParameterServer) (name : Name) (val : ParamValue) :
    ParameterServer :=
  ⟨setAssoc ps.contents name val⟩

/-- Name resolution, from `NodeContext.resolve`: a name starting with the root
separator is returned unchanged; a name starting with the private marker `~`
becomes `/<node-name>/<rest>`; any other name is qualified under the root.
Python raises `IndexError` on `name[0]` when the name is empty, modelled as
`none`. -/
def resolveName (nodeName : Name) (name : Name) : Option Name :=
  match name with
  | [] => none
  | c :: rest =>
      if c = '/' then some (c :: rest)
      else if c = '~' then some (('/' :: nodeName) ++ ('/' :: rest))
      else some ('/' :: c :: rest)

/-- The per-node effect-recording context, from class `NodeContext`.  The
Python `files` collaborator is omitted (only `read_file` uses it, a pure
pass-through).  Each `Set[Tuple[str, str]]` field is a `Finset`. -/
structure NodeContext where
  name : Name
  namespace_ : Name
  kind : Name
  package : Name
  args : Name
  nodelet : Bool
  placeholder : Bool
  remappings : List (Name × Name)
  params : ParameterServer
  uses : Finset (Name × Name)
  provides : Finset (Name × Name)
  subs : Finset (Name × Name)
  pubs : Finset (Name × Name)
  action_servers : Finset (Name × Name)
  action_clients : Finset (Name × Name)
  reads : Finset (Name × Bool)
  writes : Finset Name
deriving DecidableEq

/-- `NodeContext.resolve`, delegating to `resolveName` with the node name. -/
def NodeContext.resolve (ctx : NodeContext) (name : Name) : Option Name :=
  resolveName ctx.name name

/-- `NodeContext._remap`: substitute through the construction-time remapping
table if the name is a key, otherwise return the name unchanged. -/
def NodeContext.remap (ctx : NodeContext) (name : Name) : Name :=
  match lookupAssoc ctx.remappings name with
  | some name_new => name_new
  | none => name

/-- `NodeContext.provide`: resolve, remap, record into the provided-services
set. -/
def NodeContext.provide (ctx : NodeContext) (service : Name) (fmt : Name) :
    Option NodeContext := do
  let s ← ctx.resolve service
  let s := ctx.remap s
  pure { ctx with provides := insert (s, fmt) ctx.provides }

/-- `NodeContext.use`: resolve, remap, record into the used-services set. -/
def NodeContext.use (ctx : NodeContext) (service : Name) (fmt : Name) :
    Option NodeContext := do
  let s ← ctx.resolve service
  let s := ctx.remap s
  pure { ctx with uses := insert (s, fmt) ctx.uses }

/-- `NodeContext.sub`: resolve, remap, record into the subscriptions set. -/
def NodeContext.sub (ctx : NodeContext) (topic_name : Name) (fmt : Name) :
    Option NodeContext := do
  let t ← ctx.resolve topic_name
  let t := ctx.remap t
  pure { ctx with subs := insert (t, fmt) ctx.subs }

/-- `NodeContext.pub`: resolve, remap, record into the publications set. -/
def NodeContext.pub (ctx : NodeContext) (topic_name : Name) (fmt : Name) :
    Option NodeContext := do
  let t ← ctx.resolve topic_name
  let t := ctx.remap t
  pure { ctx with pubs := insert (t, fmt) ctx.pubs }

/-- `NodeContext.read`: resolve the parameter name (no remap lookup in the
source), record the (name, dynamic) read entry, and return the stored value or
the default. -/
def NodeContext.read (ctx : NodeContext) (param : Name)
    (default : Option ParamValue) (dynamic : Bool) :
    Option (NodeContext × Option ParamValue) := do
  let p ← ctx.resolve param
  pure ({ ctx with reads := insert (p, dynamic) ctx.reads },
        ctx.params.get p default)

/-- `NodeContext.write`: resolve the parameter name (no remap lookup in the
source) and record it in the writes set.  The source discards `val`: it is
never stored into the parameter server. -/
def NodeContext.write (ctx : NodeContext) (param : Name) (_val : ParamValue) :
    Option NodeContext := do
  let p ← ctx.resolve param
  pure { ctx with writes := insert p ctx.writes }

/-- `NodeContext.action_server`: resolve the namespace, record the action
entry (without a remap lookup), then synthesize the five-topic protocol via
`sub` and `pub` (each of which resolves and remaps its argument). -/
def NodeContext.action_server (ctx : NodeContext) (ns : Name) (fmt : Name) :
    Option NodeContext := do
  let ns ← ctx.resolve ns
  let ctx := { ctx with action_servers := insert (ns, fmt) ctx.action_servers }
  let ctx ← ctx.sub (ns ++ "/goal".data) (fmt ++ "Goal".data)
  let ctx ← ctx.sub (ns ++ "/cancel".data) "actionlib_msgs/GoalID".data
  let ctx ← ctx.pub (ns ++ "/status".data) "actionlib_msgs/GoalStatusArray".data
  let ctx ← ctx.pub (ns ++ "/feedback".data) (fmt ++ "Feedback".data)
  let ctx ← ctx.pub (ns ++ "/result".data) (fmt ++ "Result".data)
  pure ctx

/-- `NodeContext.action_client`: as `action_server` with the directions of the
five synthesized topics swapped. -/
def NodeContext.action_client (ctx : NodeContext) (ns : Name) (fmt : Name) :
    Option NodeContext := do
  let ns ← ctx.resolve ns
  let ctx := { ctx with action_clients := insert (ns, fmt) ctx.action_clients }
  let ctx ← ctx.pub (ns ++ "/goal".data) (fmt ++ "Goal".data)
  let ctx ← ctx.pub (ns ++ "/cancel".data) "actionlib_msgs/GoalID".data
  let ctx ← ctx.sub (ns ++ "/status".data) "actionlib_msgs/GoalStatusArray".data
  let ctx ← ctx.sub (ns ++ "/feedback".data) (fmt ++ "Feedback".data)
  let ctx ← ctx.sub (ns ++ "/result".data) (fmt ++ "Result".data)
  pure ctx

/-- `NodeContext.mark_nodelet`. -/
def NodeContext.mark_nodelet (ctx : NodeContext) : NodeContext :=
  { ctx with nodelet := true }

/-- `NodeContext.mark_placeholder`. -/
def NodeContext.mark_placeholder (ctx : NodeContext) : NodeContext :=
  { ctx with placeholder := true }

/-- The `fullname` property: if the namespace does not end with the separator
the source appends the two characters space-slash (a verbatim quirk of line
75, `ns += ' /'`), then concatenates the node name.  Python indexes `ns[-1]`,
raising `IndexError` on an empty namespace, modelled as `none`. -/
def NodeContext.fullname (ctx : NodeContext) : Option Name :=
  match ctx.namespace_.getLast? with
  | none => none
  | some c =>
      let ns := if c ≠ '/' then ctx.namespace_ ++ " /".data else ctx.namespace_
      some (ns ++ ctx.name)

/-- Modelled from the spec: `rosdiscover/interpreter/summary.py` is not in the
source tree.  The record fields are those of the output contract (section 6)
and exactly match the keyword arguments of the `NodeSummary` constructor call
in `NodeContext.summarize`, plus the placeholder flag of the output contract.
That call passes no `placeholder` argument, and downstream code reads the
field, so the missing class must give it a default; `false` is the only
default under which the flag can mean what the spec says (marked only for
placeholder nodes). -/
structure NodeSummary where
  name : Name
  fullname : Name
  namespace_ : Name
  kind : Name
  package : Name
  nodelet : Bool
  placeholder : Bool
  reads : Finset (Name × Bool)
  writes : Finset Name
  pubs : Finset (Name × Name)
  subs : Finset (Name × Name)
  provides : Finset (Name × Name)
  uses : Finset (Name × Name)
  action_servers : Finset (Name × Name)
  action_clients : Finset (Name × Name)
deriving DecidableEq

/-- `NodeContext.summarize`: build the summary from the accumulated state.
The source passes every constructor argument except `placeholder`, which
therefore keeps its default value `false` whatever the value of the private
placeholder flag of the context. -/
def NodeContext.summarize (ctx : NodeContext) : Option NodeSummary := do
  let fn ← ctx.fullname
  pure { name := ctx.name
         fullname := fn
         namespace_ := ctx.namespace_
         kind := ctx.kind
         package := ctx.package
         nodelet := ctx.nodelet
         placeholder := false
         reads := ctx.reads
         writes := ctx.writes
         pubs := ctx.pubs
         subs := ctx.subs
         provides := ctx.provides
         uses := ctx.uses
         action_servers := ctx.action_servers
         action_clients := ctx.action_clients }

/-- Errors raised by the interpreter module.  `keyError` is the dictionary
lookup failure in `Model.find` when the placeholder entry is absent;
`indexError` is the string-indexing failure of `resolve` (and of `fullname`)
on an empty name; `valueError` is the tuple-unpacking failure of the nodelet
argument parsing; the remaining constructors name the exceptions the module
raises itself. -/
inductive Err where
  | keyError : Err
  | indexError : Err
  | valueError : Err
  | duplicateModel : Err
  | modelNotFound (package : Name) (nodetype : Name) : Err
  | behaviorFailure (msg : Name) : Err
deriving DecidableEq

/-- Effect commands available to a behavior.  A Python behavior is an
arbitrary callable interacting with the node solely through the `NodeContext`
API (the sole extension mechanism, spec section 6); the embedding represents a
behavior as the list of API calls it makes.  `fail` models a behavior raising
an exception (for example a collaborator failure inside `read_file`). -/
inductive Cmd where
  | pub (topic : Name) (fmt : Name) : Cmd
  | sub (topic : Name) (fmt : Name) : Cmd
  | provide (service : Name) (fmt : Name) : Cmd
  | use (service : Name) (fmt : Name) : Cmd
  | read (param : Name) (default : Option ParamValue) (dynamic : Bool) : Cmd
  | write (param : Name) (val : ParamValue) : Cmd
  | action_server (ns : Name) (fmt : Name) : Cmd
  | action_client (ns : Name) (fmt : Name) : Cmd
  | mark_nodelet : Cmd
  | mark_placeholder : Cmd
  | fail (msg : Name) : Cmd
deriving DecidableEq

/-- Run one effect command against a context. -/
def NodeContext.runCmd (ctx : NodeContext) : Cmd → Except Err NodeContext
  | .pub t f => match ctx.pub t f with
      | some c => .ok c
      | none => .error .indexError
  | .sub t f => match ctx.sub t f with
      | some c => .ok c
      | none => .error .indexError
  | .provide s f => match ctx.provide s f with
      | some c => .ok c
      | none => .error .indexError
  | .use s f => match ctx.use s f with
      | some c => .ok c
      | none => .error .indexError
  | .read p d dyn => match ctx.read p d dyn with
      | some (c, _) => .ok c
      | none => .error .indexError
  | .write p v => match ctx.write p v with
      | some c => .ok c
      | none => .error .indexError
  | .action_server ns f => match ctx.action_server ns f with
      | some c => .ok c
      | none => .error .indexError
  | .action_client ns f => match ctx.action_client ns f with
      | some c => .ok c
      | none => .error .indexError
  | .mark_nodelet => .ok ctx.mark_nodelet
  | .mark_placeholder => .ok ctx.mark_placeholder
  | .fail msg => .error (.behaviorFailure msg)

/-- Run a behavior to completion, or stop at its first failure.  The context
reached so far is returned either way, mirroring the persistence of object
mutations when a Python exception propagates. -/
def evalCmds (ctx : NodeContext) : List Cmd → NodeContext × Option Err
  | [] => (ctx, none)
  | c :: rest =>
      match ctx.runCmd c with
      | .ok ctx2 => evalCmds ctx2 rest
      | .error e => (ctx, some e)

/-- A registered model, from class `Model`: the (package, name) attribution
fields and the behavior definition. -/
structure Model where
  package : Name
  name : Name
  definition : List Cmd
deriving DecidableEq

/-- The `Model._models` class-level dictionary, as an association list with at
most one entry per key. -/
abbrev Registry := List ((Name × Name) × Model)

/-- Registry lookup. -/
def lookupReg : Registry → (Name × Name) → Option Model
  | [], _ => none
  | (k, m) :: rest, key => if k = key then some m else lookupReg rest key

/-- Replace the value stored under a key, modelling in-place mutation of the
object the dictionary entry points to. -/
def setReg (models : Registry) (key : Name × Name) (m : Model) : Registry :=
  models.map (fun e => if e.1 = key then (key, m) else e)

/-- The reserved placeholder key. -/
def placeholderKey : Name × Name := ("PLACEHOLDER".data, "PLACEHOLDER".data)

/-- `Model.register`: raise on an already-registered key (the source formats a
duplicate-model message and raises `Exception` before touching the
dictionary), otherwise insert the new model. -/
def Model.register (models : Registry) (package : Name) (name : Name)
    (definition : List Cmd) : Except Err Registry :=
  if (lookupReg models (package, name)).isSome then .error .duplicateModel
  else .ok (models ++ [((package, name), Model.mk package name definition)])

/-- `Model.find`: return the registered model for the key; on a missing key,
fetch the model stored under the placeholder key, overwrite its package and
name attributes in place with the queried key (the mutation is visible
through the registry, since the entry and the returned value are the same
object), and return it.  If the placeholder entry is itself absent the inner
dictionary access raises `KeyError`, uncaught. -/
def Model.find (models : Registry) (package : Name) (name : Name) :
    Except Err (Model × Registry) :=
  match lookupReg models (package, name) with
  | some m => .ok (m, models)
  | none =>
      match lookupReg models placeholderKey with
      | some ph =>
          let ph2 : Model := { ph with package := package, name := name }
          .ok (ph2, setReg models placeholderKey ph2)
      | none => .error .keyError

/-- `Model.eval`: apply the stored behavior to a context. -/
def Model.eval (m : Model) (ctx : NodeContext) : NodeContext × Option Err :=
  evalCmds ctx m.definition

/-- Resolve the raw remapping pairs into the fully-qualified table, from the
dictionary comprehension in `NodeContext.__init__`: each pair is resolved on
both sides in order, a later pair whose resolved old name collides with an
earlier one overwriting it.  A pair with an empty side makes `resolve` raise,
modelled as `none`. -/
def resolveRemapInto (nodeName : Name) (acc : List (Name × Name)) :
    List (Name × Name) → Option (List (Name × Name))
  | [] => some acc
  | (x, y) :: rest => do
      let x2 ← resolveName nodeName x
      let y2 ← resolveName nodeName y
      resolveRemapInto nodeName (setAssoc acc x2 y2) rest

/-- `NodeContext.__init__`: a fresh context with empty interaction sets and
the raw remapping pairs resolved on both sides. -/
def mkNodeContext (name : Name) (namespace_ : Name) (kind : Name)
    (package : Name) (args : Name) (remappings : List (Name × Name))
    (params : ParameterServer) : Option NodeContext := do
  let table ← resolveRemapInto name [] remappings
  pure { name := name
         namespace_ := namespace_
         kind := kind
         package := package
         args := args
         nodelet := false
         placeholder := false
         remappings := table
         params := params
         uses := ∅
         provides := ∅
         subs := ∅
         pubs := ∅
         action_servers := ∅
         action_clients := ∅
         reads := ∅
         writes := ∅ }

/-- Python `str.strip`: drop whitespace from both ends. -/
def stripName (s : Name) : Name :=
  ((s.dropWhile Char.isWhitespace).reverse.dropWhile Char.isWhitespace).reverse

/-- Python `str.split(sep)` for a one-character separator: split at every
occurrence, keeping empty fields (so the empty string yields one empty
field). -/
def splitChar (sep : Char) : Name → List Name
  | [] => [[]]
  | c :: rest =>
      if c = sep then [] :: splitChar sep rest
      else
        match splitChar sep rest with
        | h :: t => (c :: h) :: t
        | [] => [[c]]

/-- Python `str.partition(sep)` for a one-character separator, keeping the
parts before and after the first occurrence; when the separator is absent the
whole string is the first part and the second is empty, as in Python. -/
def partitionChar (sep : Char) : Name → Name × Name
  | [] => ([], [])
  | c :: rest =>
      if c = sep then ([], rest)
      else
        let (before, after) := partitionChar sep rest
        (c :: before, after)

/-- One interpreter session, from class `Interpreter`: the session-scoped
parameter server and result set, plus the process-wide model registry
(`Model._models`), threaded explicitly so that the placeholder mutation done
by `Model.find` is part of the state. -/
structure InterpreterState where
  models : Registry
  params : ParameterServer
  nodes : Finset NodeSummary
deriving DecidableEq

/-- The ordinary (non-nodelet) part of `Interpreter.load`: look up the model
(converting a lookup failure into the fatal model-not-found exception),
construct the context, evaluate the behavior, and insert the finalized
summary into the result set.  The first component of the result is the state
as left behind when the second component reports an exception, since Python
object mutations persist when an exception propagates. -/
def Interpreter.loadOrdinary (g : InterpreterState) (pkg : Name)
    (nodetype : Name) (name : Name) (namespace_ : Name)
    (remappings : List (Name × Name)) (args : Name) :
    InterpreterState × Option Err :=
  match Model.find g.models pkg nodetype with
  | .error _ => (g, some (.modelNotFound pkg nodetype))
  | .ok (model, models2) =>
      let g := { g with models := models2 }
      match mkNodeContext name namespace_ nodetype pkg args remappings g.params with
      | none => (g, some .indexError)
      | some ctx =>
          match Model.eval model ctx with
          | (ctx2, some e) => ({ g with params := ctx2.params }, some e)
          | (ctx2, none) =>
              match ctx2.summarize with
              | none => ({ g with params := ctx2.params }, some .indexError)
              | some summary =>
                  ({ g with params := ctx2.params,
                            nodes := insert summary g.nodes }, none)

/-- `Interpreter.load_nodelet`: logs and delegates to `Interpreter.load` with
an empty argument string.  The recursive inner call is unrolled here: with
empty arguments a nodetype of `nodelet` falls through to the three-token
unpacking of the empty string, which raises `ValueError`; otherwise the inner
call takes the ordinary path. -/
def Interpreter.load_nodelet (g : InterpreterState) (pkg : Name)
    (nodetype : Name) (name : Name) (namespace_ : Name)
    (remappings : List (Name × Name)) (_manager : Option Name) :
    InterpreterState × Option Err :=
  if nodetype = "nodelet".data then (g, some .valueError)
  else Interpreter.loadOrdinary g pkg nodetype name namespace_ remappings []

/-- `Interpreter.load`: strip the argument string; for the reserved `nodelet`
type branch on the arguments (`manager` is purely observational, `standalone
<pkg>/<type>` delegates hostless, otherwise exactly three space-separated
tokens carry `<pkg>/<type>` and the manager name, anything else raising
`ValueError`); otherwise take the ordinary path. -/
def Interpreter.load (g : InterpreterState) (pkg : Name) (nodetype : Name)
    (name : Name) (namespace_ : Name) (remappings : List (Name × Name))
    (args : Name) : InterpreterState × Option Err :=
  let args := stripName args
  if nodetype = "nodelet".data then
    if args = "manager".data then (g, none)
    else if "standalone ".data.isPrefixOf args then
      let pkg_and_nodetype := (partitionChar ' ' args).2
      let pt := partitionChar '/' pkg_and_nodetype
      Interpreter.load_nodelet g pt.1 pt.2 name namespace_ remappings none
    else
      match splitChar ' ' args with
      | [_, pkg_and_nodetype, mgr] =>
          let pt := partitionChar '/' pkg_and_nodetype
          Interpreter.load_nodelet g pt.1 pt.2 name namespace_ remappings (some mgr)
      | _ => (g, some .valueError)
  else Interpreter.loadOrdinary g pkg nodetype name namespace_ remappings args

/-- A node descriptor of the parsed configuration, as produced by the external
reader collaborator (spec section 6): name, package, type, namespace, optional
argument string and raw remapping pairs. -/
structure NodeDescription where
  name : Name
  package : Name
  typ : Name
  namespace_ : Name
  args : Option Name
  remappings : List (Name × Name)
deriving DecidableEq

/-- A parsed configuration: the declared parameters and the ordered node
descriptors. -/
structure LaunchConfig where
  params : List (Name × ParamValue)
  nodes : List NodeDescription
deriving DecidableEq

/-- Seed the parameter store with the declared parameters, in order, as the
first loop of `Interpreter.launch` does (stored as given, no re-resolution). -/
def seedParams (ps : ParameterServer) : List (Name × ParamValue) → ParameterServer
  | [] => ps
  | (k, v) :: rest => seedParams (ps.set k v) rest

/-- The per-descriptor call of the launch loop: build the remapping dictionary
from the raw pairs (later duplicates of a raw old name overwrite earlier
ones), default the argument string to empty, and call `Interpreter.load`. -/
def Interpreter.loadNode (g : InterpreterState) (nd : NodeDescription) :
    InterpreterState × Option Err :=
  Interpreter.load g nd.package nd.typ nd.name nd.namespace_
    (nd.remappings.foldl (fun d p => setAssoc d p.1 p.2) [])
    (nd.args.getD [])

/-- The node loop of `Interpreter.launch`: nodes are loaded in order; the
first failure is logged and re-raised, aborting the remaining nodes. -/
def Interpreter.launchNodes (g : InterpreterState) :
    List NodeDescription → InterpreterState × Option Err
  | [] => (g, none)
  | nd :: rest =>
      match Interpreter.loadNode g nd with
      | (g2, none) => Interpreter.launchNodes g2 rest
      | (g2, some e) => (g2, some e)

/-- `Interpreter.launch` on a parsed configuration: seed every declared
parameter into the session parameter store, then load the nodes in file
order.  The textual preprocessing and the reader are external collaborators;
their product, the parsed configuration, is the input here. -/
def Interpreter.launch (g : InterpreterState) (config : LaunchConfig) :
    InterpreterState × Option Err :=
  Interpreter.launchNodes { g with params := seedParams g.params config.params }
    config.nodes

/-! ## Helper lemmas -/

/-- Every name produced by resolution is fully qualified. -/
lemma resolveName_isSlash {nodeName name m : Name}
    (h : resolveName nodeName name = some m) : ∃ t, m = '/' :: t := by
  match name with
  | [] => simp [resolveName] at h
  | c :: rest =>
      by_cases h1 : c = '/'
      · subst h1
        simp [resolveName] at h
        exact ⟨rest, h.symm⟩
      · by_cases h2 : c = '~'
        · subst h2
          simp [resolveName, h1] at h
          exact ⟨nodeName ++ ('/' :: rest), h.symm⟩
        · simp [resolveName, h1, h2] at h
          exact ⟨c :: rest, h.symm⟩

/-- Resolution of an already fully-qualified name is the identity. -/
lemma resolveName_slash (nodeName r : Name) :
    resolveName nodeName ('/' :: r) = some ('/' :: r) := by
  simp [resolveName]

/-- With an empty remapping table, remapping is the identity. -/
lemma remap_nil {ctx : NodeContext} (h : ctx.remappings = []) (x : Name) :
    ctx.remap x = x := by
  simp [NodeContext.remap, h, lookupAssoc]

/-- Characterization of `pub` when resolution succeeds. -/
lemma pub_eq {ctx : NodeContext} {t m : Name} (f : Name)
    (h : resolveName ctx.name t = some m) :
    ctx.pub t f = some { ctx with pubs := insert (ctx.remap m, f) ctx.pubs } := by
  simp [NodeContext.pub, NodeContext.resolve, h]

/-- Characterization of `sub` when resolution succeeds. -/
lemma sub_eq {ctx : NodeContext} {t m : Name} (f : Name)
    (h : resolveName ctx.name t = some m) :
    ctx.sub t f = some { ctx with subs := insert (ctx.remap m, f) ctx.subs } := by
  simp [NodeContext.sub, NodeContext.resolve, h]

/-- Characterization of `provide` when resolution succeeds. -/
lemma provide_eq {ctx : NodeContext} {s m : Name} (f : Name)
    (h : resolveName ctx.name s = some m) :
    ctx.provide s f = some { ctx with provides := insert (ctx.remap m, f) ctx.provides } := by
  simp [NodeContext.provide, NodeContext.resolve, h]

/-- Characterization of `use` when resolution succeeds. -/
lemma use_eq {ctx : NodeContext} {s m : Name} (f : Name)
    (h : resolveName ctx.name s = some m) :
    ctx.use s f = some { ctx with uses := insert (ctx.remap m, f) ctx.uses } := by
  simp [NodeContext.use, NodeContext.resolve, h]

/-- Characterization of `read` when resolution succeeds: the recorded name is
the resolved name itself, with no remap lookup. -/
lemma read_eq {ctx : NodeContext} {p m : Name} (d : Option ParamValue) (dyn : Bool)
    (h : resolveName ctx.name p = some m) :
    ctx.read p d dyn =
      some ({ ctx with reads := insert (m, dyn) ctx.reads }, ctx.params.get m d) := by
  simp [NodeContext.read, NodeContext.resolve, h]

/-- Characterization of `write` when resolution succeeds: the recorded name is
the resolved name itself, with no remap lookup, and the parameter store of the
context is untouched. -/
lemma write_eq {ctx : NodeContext} {p m : Name} (v : ParamValue)
    (h : resolveName ctx.name p = some m) :
    ctx.write p v = some { ctx with writes := insert m ctx.writes } := by
  simp [NodeContext.write, NodeContext.resolve, h]

/-- The `sub` of a fully-qualified name records its remapping. -/
lemma sub_slash (ctx : NodeContext) (t f : Name) :
    ctx.sub ('/' :: t) f =
      some { ctx with subs := insert (ctx.remap ('/' :: t), f) ctx.subs } :=
  sub_eq f (resolveName_slash ctx.name t)

/-- The `pub` of a fully-qualified name records its remapping. -/
lemma pub_slash (ctx : NodeContext) (t f : Name) :
    ctx.pub ('/' :: t) f =
      some { ctx with pubs := insert (ctx.remap ('/' :: t), f) ctx.pubs } :=
  pub_eq f (resolveName_slash ctx.name t)

/-- Characterization of `action_server` when the namespace resolves: the
action entry records the resolved namespace without remapping, while the five
synthesized topics each go through resolve (the identity here, as they are
fully qualified) and remap. -/
lemma action_server_eq {ctx : NodeContext} {ns t : Name} (fmt : Name)
    (h : resolveName ctx.name ns = some ('/' :: t)) :
    ctx.action_server ns fmt = some { ctx with
      action_servers := insert (('/' :: t), fmt) ctx.action_servers
      subs := insert (ctx.remap ('/' :: (t ++ "/cancel".data)), "actionlib_msgs/GoalID".data)
        (insert (ctx.remap ('/' :: (t ++ "/goal".data)), fmt ++ "Goal".data) ctx.subs)
      pubs := insert (ctx.remap ('/' :: (t ++ "/result".data)), fmt ++ "Result".data)
        (insert (ctx.remap ('/' :: (t ++ "/feedback".data)), fmt ++ "Feedback".data)
          (insert (ctx.remap ('/' :: (t ++ "/status".data)), "actionlib_msgs/GoalStatusArray".data) ctx.pubs)) } := by
  rw [NodeContext.action_server, NodeContext.resolve, h]
  simp only [Option.pure_def, Option.bind_eq_bind, Option.some_bind, List.cons_append]
  rw [sub_slash]
  simp only [Option.some_bind, List.cons_append]
  rw [sub_slash]
  simp only [Option.some_bind, List.cons_append]
  rw [pub_slash]
  simp only [Option.some_bind, List.cons_append]
  rw [pub_slash]
  simp only [Option.some_bind, List.cons_append]
  rw [pub_slash]
  simp only [Option.some_bind]
  simp [NodeContext.remap]

/-- Characterization of `action_client` when the namespace resolves, with the
directions swapped relative to `action_server_eq`. -/
lemma action_client_eq {ctx : NodeContext} {ns t : Name} (fmt : Name)
    (h : resolveName ctx.name ns = some ('/' :: t)) :
    ctx.action_client ns fmt = some { ctx with
      action_clients := insert (('/' :: t), fmt) ctx.action_clients
      pubs := insert (ctx.remap ('/' :: (t ++ "/cancel".data)), "actionlib_msgs/GoalID".data)
        (insert (ctx.remap ('/' :: (t ++ "/goal".data)), fmt ++ "Goal".data) ctx.pubs)
      subs := insert (ctx.remap ('/' :: (t ++ "/result".data)), fmt ++ "Result".data)
        (insert (ctx.remap ('/' :: (t ++ "/feedback".data)), fmt ++ "Feedback".data)
          (insert (ctx.remap ('/' :: (t ++ "/status".data)), "actionlib_msgs/GoalStatusArray".data) ctx.subs)) } := by
  rw [NodeContext.action_client, NodeContext.resolve, h]
  simp only [Option.pure_def, Option.bind_eq_bind, Option.some_bind, List.cons_append]
  rw [pub_slash]
  simp only [Option.some_bind, List.cons_append]
  rw [pub_slash]
  simp only [Option.some_bind, List.cons_append]
  rw [sub_slash]
  simp only [Option.some_bind, List.cons_append]
  rw [sub_slash]
  simp only [Option.some_bind, List.cons_append]
  rw [sub_slash]
  simp only [Option.some_bind]
  simp [NodeContext.remap]

/-! ## Concrete sample values -/

/-- An empty parameter store. -/
def emptyServer : ParameterServer := ⟨[]⟩

/-- A freshly constructed context with no remappings, as built by
`mkNodeContext` for a node named talker in the root namespace. -/
def witnessCtx : NodeContext :=
  { name := "talker".data
    namespace_ := "/".data
    kind := "t1".data
    package := "p1".data
    args := []
    nodelet := false
    placeholder := false
    remappings := []
    params := emptyServer
    uses := ∅
    provides := ∅
    subs := ∅
    pubs := ∅
    action_servers := ∅
    action_clients := ∅
    reads := ∅
    writes := ∅ }

/-- The construction of `witnessCtx` through the embedded constructor. -/
lemma witnessCtx_mk :
    mkNodeContext "talker".data "/".data "t1".data "p1".data [] [] emptyServer =
      some witnessCtx := by decide

/-- The sample context of the spec example: raw remapping pair (a, b), which
construction resolves to the fully-qualified table entry (/a, /b). -/
def remapCtx : NodeContext :=
  { witnessCtx with remappings := [("/a".data, "/b".data)] }

/-- The construction of `remapCtx` through the embedded constructor, showing
both sides of the raw pair being resolved. -/
lemma remapCtx_mk :
    mkNodeContext "talker".data "/".data "t1".data "p1".data []
      [("a".data, "b".data)] emptyServer = some remapCtx := by decide

/-! ## Claim theorems -/

/-- C3: for every non-empty name, `resolve` returns the name unchanged when it
starts with the root separator, returns `/<node-name>/<rest>` when it starts
with the private marker, and otherwise qualifies the relative name under the
root, never incorporating the namespace argument of the node. -/
theorem resolve_spec (ctx : NodeContext) (c : Char) (rest : Name) :
    (c = '/' → ctx.resolve (c :: rest) = some (c :: rest)) ∧
    (c = '~' → ctx.resolve (c :: rest) = some (('/' :: ctx.name) ++ ('/' :: rest))) ∧
    (c ≠ '/' → c ≠ '~' → ctx.resolve (c :: rest) = some ('/' :: c :: rest)) ∧
    (∀ ns2 : Name,
      NodeContext.resolve { ctx with namespace_ := ns2 } (c :: rest) =
        ctx.resolve (c :: rest)) := by
  refine ⟨fun h1 => ?_, fun h2 => ?_, fun h1 h2 => ?_, fun ns2 => rfl⟩ <;>
    simp [NodeContext.resolve, resolveName, *]

/-- Witness for C3 at concrete inputs: an absolute, a private and a relative
name resolved in `witnessCtx`. -/
theorem resolve_spec_witness :
    witnessCtx.resolve ('/' :: "x".data) = some ('/' :: "x".data) ∧
    witnessCtx.resolve ('~' :: "x".data) =
      some (('/' :: witnessCtx.name) ++ ('/' :: "x".data)) ∧
    witnessCtx.resolve ('x' :: "y".data) = some ('/' :: 'x' :: "y".data) :=
  ⟨(resolve_spec witnessCtx '/' "x".data).1 rfl,
   (resolve_spec witnessCtx '~' "x".data).2.1 rfl,
   (resolve_spec witnessCtx 'x' "y".data).2.2.1 (by decide) (by decide)⟩

/-- C2: on a context with no remappings and empty interaction sets,
`action_server` with a fully-qualified namespace records exactly the action
entry, the goal and cancel subscriptions, and the status, feedback and result
publications, with the stated suffix and type-name construction;
`action_client` swaps the two topic sets. -/
theorem action_expansion_exact (ctx : NodeContext) (t fmt : Name)
    (hremap : ctx.remappings = []) (hsubs : ctx.subs = ∅) (hpubs : ctx.pubs = ∅)
    (hservers : ctx.action_servers = ∅) (hclients : ctx.action_clients = ∅) :
    (∃ c, ctx.action_server ('/' :: t) fmt = some c ∧
      c.action_servers = {(('/' :: t), fmt)} ∧
      c.subs = {(('/' :: t) ++ "/goal".data, fmt ++ "Goal".data),
                (('/' :: t) ++ "/cancel".data, "actionlib_msgs/GoalID".data)} ∧
      c.pubs = {(('/' :: t) ++ "/status".data, "actionlib_msgs/GoalStatusArray".data),
                (('/' :: t) ++ "/feedback".data, fmt ++ "Feedback".data),
                (('/' :: t) ++ "/result".data, fmt ++ "Result".data)}) ∧
    (∃ c, ctx.action_client ('/' :: t) fmt = some c ∧
      c.action_clients = {(('/' :: t), fmt)} ∧
      c.pubs = {(('/' :: t) ++ "/goal".data, fmt ++ "Goal".data),
                (('/' :: t) ++ "/cancel".data, "actionlib_msgs/GoalID".data)} ∧
      c.subs = {(('/' :: t) ++ "/status".data, "actionlib_msgs/GoalStatusArray".data),
                (('/' :: t) ++ "/feedback".data, fmt ++ "Feedback".data),
                (('/' :: t) ++ "/result".data, fmt ++ "Result".data)}) := by
  have hres : resolveName ctx.name ('/' :: t) = some ('/' :: t) :=
    resolveName_slash ctx.name t
  constructor
  · refine ⟨_, action_server_eq fmt hres, ?_, ?_, ?_⟩
    · simp [hservers]
    · simp only [remap_nil hremap, hsubs, List.cons_append]
      ext x
      simp only [Finset.mem_insert, Finset.mem_singleton, Finset.not_mem_empty,
        or_false]
      tauto
    · simp only [remap_nil hremap, hpubs, List.cons_append]
      ext x
      simp only [Finset.mem_insert, Finset.mem_singleton, Finset.not_mem_empty,
        or_false]
      tauto
  · refine ⟨_, action_client_eq fmt hres, ?_, ?_, ?_⟩
    · simp [hclients]
    · simp only [remap_nil hremap, hpubs, List.cons_append]
      ext x
      simp only [Finset.mem_insert, Finset.mem_singleton, Finset.not_mem_empty,
        or_false]
      tauto
    · simp only [remap_nil hremap, hsubs, List.cons_append]
      ext x
      simp only [Finset.mem_insert, Finset.mem_singleton, Finset.not_mem_empty,
        or_false]
      tauto

/-- Witness for C2: the spec example with namespace /fetch and format
ExampleAction on the fresh sample context. -/
theorem action_expansion_exact_witness :
    (∃ c, witnessCtx.action_server ('/' :: "fetch".data) "ExampleAction".data = some c ∧
      c.action_servers = {(('/' :: "fetch".data), "ExampleAction".data)} ∧
      c.subs = {(('/' :: "fetch".data) ++ "/goal".data, "ExampleAction".data ++ "Goal".data),
                (('/' :: "fetch".data) ++ "/cancel".data, "actionlib_msgs/GoalID".data)} ∧
      c.pubs = {(('/' :: "fetch".data) ++ "/status".data, "actionlib_msgs/GoalStatusArray".data),
                (('/' :: "fetch".data) ++ "/feedback".data, "ExampleAction".data ++ "Feedback".data),
                (('/' :: "fetch".data) ++ "/result".data, "ExampleAction".data ++ "Result".data)}) ∧
    (∃ c, witnessCtx.action_client ('/' :: "fetch".data) "ExampleAction".data = some c ∧
      c.action_clients = {(('/' :: "fetch".data), "ExampleAction".data)} ∧
      c.pubs = {(('/' :: "fetch".data) ++ "/goal".data, "ExampleAction".data ++ "Goal".data),
                (('/' :: "fetch".data) ++ "/cancel".data, "actionlib_msgs/GoalID".data)} ∧
      c.subs = {(('/' :: "fetch".data) ++ "/status".data, "actionlib_msgs/GoalStatusArray".data),
                (('/' :: "fetch".data) ++ "/feedback".data, "ExampleAction".data ++ "Feedback".data),
                (('/' :: "fetch".data) ++ "/result".data, "ExampleAction".data ++ "Result".data)}) :=
  action_expansion_exact witnessCtx "fetch".data "ExampleAction".data rfl rfl rfl rfl rfl

/-- Counterexample for C1: on a context whose remapping table maps /a to /b,
`read` and `write` on the name a record the merely-resolved /a, not the
remapped /b, contradicting the claim that every effect-declaration operation
(read_parameter and write_parameter included) substitutes through the
remapping table before recording. -/
theorem read_write_not_remapped_cx :
    remapCtx.read "a".data none false =
      some ({ remapCtx with reads := {("/a".data, false)} }, none) ∧
    ("/a".data, false) ∈
      ({ remapCtx with reads := {("/a".data, false)} } : NodeContext).reads ∧
    ("/b".data, false) ∉
      ({ remapCtx with reads := {("/a".data, false)} } : NodeContext).reads ∧
    remapCtx.write "a".data (ParamValue.numVal 1) =
      some { remapCtx with writes := {"/a".data} } ∧
    "/a".data ∈ ({ remapCtx with writes := {"/a".data} } : NodeContext).writes ∧
    "/b".data ∉ ({ remapCtx with writes := {"/a".data} } : NodeContext).writes := by
  decide

/-- C1 (amended): `publish`, `subscribe`, `provide_service` and `use_service`
each resolve their name and then substitute through the construction-time
remapping table (whose raw pairs construction resolves on both sides) before
recording; `read_parameter` and `write_parameter` record the resolved name
without a remap lookup, and the action entry recorded by
`provide_action`/`use_action` is likewise resolved but not remapped.  For a
remapping pair (a, b) resolving to /a and /b, publish of a records (/b, T). -/
theorem remap_topics_and_services_only (ctx : NodeContext) (m : Name) :
    (∀ t f, resolveName ctx.name t = some m →
      ctx.pub t f = some { ctx with pubs := insert (ctx.remap m, f) ctx.pubs }) ∧
    (∀ t f, resolveName ctx.name t = some m →
      ctx.sub t f = some { ctx with subs := insert (ctx.remap m, f) ctx.subs }) ∧
    (∀ s f, resolveName ctx.name s = some m →
      ctx.provide s f =
        some { ctx with provides := insert (ctx.remap m, f) ctx.provides }) ∧
    (∀ s f, resolveName ctx.name s = some m →
      ctx.use s f = some { ctx with uses := insert (ctx.remap m, f) ctx.uses }) ∧
    (∀ p d dyn, resolveName ctx.name p = some m →
      ctx.read p d dyn =
        some ({ ctx with reads := insert (m, dyn) ctx.reads },
              ctx.params.get m d)) ∧
    (∀ p v, resolveName ctx.name p = some m →
      ctx.write p v = some { ctx with writes := insert m ctx.writes }) ∧
    (∀ ns f t c, m = '/' :: t → resolveName ctx.name ns = some m →
      ctx.action_server ns f = some c →
      c.action_servers = insert (m, f) ctx.action_servers) ∧
    (∀ ns f t c, m = '/' :: t → resolveName ctx.name ns = some m →
      ctx.action_client ns f = some c →
      c.action_clients = insert (m, f) ctx.action_clients) ∧
    (∀ nm nsp kind pkg args raw ps c,
      mkNodeContext nm nsp kind pkg args raw ps = some c →
      resolveRemapInto nm [] raw = some c.remappings) := by
  refine ⟨fun t f h => pub_eq f h, fun t f h => sub_eq f h,
    fun s f h => provide_eq f h, fun s f h => use_eq f h,
    fun p d dyn h => read_eq d dyn h, fun p v h => write_eq v h,
    ?_, ?_, ?_⟩
  · rintro ns f t c rfl h hc
    rw [action_server_eq f h] at hc
    cases hc
    rfl
  · rintro ns f t c rfl h hc
    rw [action_client_eq f h] at hc
    cases hc
    rfl
  · intro nm nsp kind pkg args raw ps c hc
    rw [mkNodeContext] at hc
    rcases hr : resolveRemapInto nm [] raw with _ | tbl
    · rw [hr] at hc
      simp at hc
    · rw [hr] at hc
      simp only [Option.pure_def, Option.bind_eq_bind, Option.some_bind,
        Option.some.injEq] at hc
      rw [← hc]

/-- Witness for C1 (amended): on the sample remapped context, publish of the
relative name a resolves to /a and then substitutes the table entry, recording
(/b, T); read of the same name records the unremapped (/a, false). -/
theorem remap_topics_and_services_only_witness :
    remapCtx.pub "a".data "T".data =
      some { remapCtx with
               pubs := insert (remapCtx.remap "/a".data, "T".data) remapCtx.pubs } ∧
    insert (remapCtx.remap "/a".data, "T".data) remapCtx.pubs =
      {("/b".data, "T".data)} ∧
    remapCtx.read "a".data none false =
      some ({ remapCtx with reads := insert ("/a".data, false) remapCtx.reads },
            ParameterServer.get remapCtx.params "/a".data none) :=
  ⟨(remap_topics_and_services_only remapCtx "/a".data).1 "a".data "T".data (by decide),
   by decide,
   (remap_topics_and_services_only remapCtx "/a".data).2.2.2.2.1 "a".data none false
     (by decide)⟩

/-- Decidable equality for `Except` results, used to evaluate concrete
outcomes of the registry and interpreter operations. -/
def exceptDecEq {e a : Type} [DecidableEq e] [DecidableEq a] : DecidableEq (Except e a) :=
  fun x y =>
    match x, y with
    | .ok v, .ok w => decidable_of_iff (v = w) (by simp)
    | .error v, .error w => decidable_of_iff (v = w) (by simp)
    | .ok _, .error _ => isFalse (by simp)
    | .error _, .ok _ => isFalse (by simp)

/-- Decidable equality at the result type of `Model.find`. -/
instance : DecidableEq (Except Err (Model × Registry)) := exceptDecEq

/-- Decidable equality at the result type of `Model.register`. -/
instance : DecidableEq (Except Err Registry) := exceptDecEq

/-- Counterexample for C4: after `write` of the name a with value 7 on a
context with an empty parameter store, the write entry /a is recorded but the
parameter store of the session is unchanged and does not contain the value
under the resolved name, contradicting the claim that the value is stored. -/
theorem write_not_stored_cx :
    witnessCtx.write "a".data (ParamValue.numVal 7) =
      some { witnessCtx with writes := {"/a".data} } ∧
    ({ witnessCtx with writes := {"/a".data} } : NodeContext).params =
      witnessCtx.params ∧
    ParameterServer.get
      ({ witnessCtx with writes := {"/a".data} } : NodeContext).params
      "/a".data none ≠ some (ParamValue.numVal 7) := by
  decide

/-- C4 (amended): `write_parameter` resolves the name and records the resolved
name in the parameter-writes set, but does not store the value: the parameter
store visible through the context is unchanged by the call. -/
theorem write_records_without_storing (ctx : NodeContext) (p m : Name)
    (v : ParamValue) (h : resolveName ctx.name p = some m) :
    ctx.write p v = some { ctx with writes := insert m ctx.writes } ∧
    ∀ c, ctx.write p v = some c → c.params = ctx.params := by
  refine ⟨write_eq v h, fun c hc => ?_⟩
  rw [write_eq v h] at hc
  cases hc
  rfl

/-- Witness for C4 (amended) at a concrete input. -/
theorem write_records_without_storing_witness :
    witnessCtx.write "a".data (ParamValue.numVal 7) =
      some { witnessCtx with writes := insert "/a".data witnessCtx.writes } ∧
    ∀ c, witnessCtx.write "a".data (ParamValue.numVal 7) = some c →
      c.params = witnessCtx.params :=
  write_records_without_storing witnessCtx "a".data "/a".data
    (ParamValue.numVal 7) (by decide)

/-- The registry model registered under the placeholder key. -/
def phModel : Model := Model.mk "PLACEHOLDER".data "PLACEHOLDER".data []

/-- A registry holding only the placeholder model. -/
def regPH : Registry := [(placeholderKey, phModel)]

/-- The placeholder model after a lookup of the missing key (p, n) has
overwritten its attribution fields in place. -/
def phMutated : Model := Model.mk "p".data "n".data []

/-- The registry after that mutation. -/
def regPHMutated : Registry := [(placeholderKey, phMutated)]

/-- Counterexample for C5: a lookup of a missing key returns the shared
placeholder model with its package and name fields overwritten, and the
registry state changes: a later, unrelated lookup of the placeholder key
itself observes the mutated model instead of the original one. -/
theorem find_placeholder_mutation_cx :
    Model.find regPH "p".data "n".data = .ok (phMutated, regPHMutated) ∧
    regPHMutated ≠ regPH ∧
    Model.find regPH placeholderKey.1 placeholderKey.2 = .ok (phModel, regPH) ∧
    Model.find regPHMutated placeholderKey.1 placeholderKey.2 =
      .ok (phMutated, regPHMutated) ∧
    phMutated ≠ phModel := by
  decide

/-- C5 (amended): `Model.find` on a missing key returns the single shared
placeholder model, after overwriting its package and name fields in place
with the queried key (so the returned behavior does carry the queried key for
attribution); the mutation is shared state, visible through the placeholder
entry of the registry to every later lookup. -/
theorem find_missing_key_shared_placeholder (models : Registry) (p n : Name)
    (ph : Model) (hmiss : lookupReg models (p, n) = none)
    (hph : lookupReg models placeholderKey = some ph) :
    Model.find models p n =
      .ok ({ ph with package := p, name := n },
           setReg models placeholderKey { ph with package := p, name := n }) := by
  simp [Model.find, hmiss, hph]

/-- Witness for C5 (amended) at the concrete one-entry registry. -/
theorem find_missing_key_shared_placeholder_witness :
    Model.find regPH "p".data "n".data =
      .ok ({ phModel with package := "p".data, name := "n".data },
           setReg regPH placeholderKey
             { phModel with package := "p".data, name := "n".data }) :=
  find_missing_key_shared_placeholder regPH "p".data "n".data phModel
    (by decide) (by decide)

/-- C8: registering an already-present (package, name) key fails with the
duplicate-model error before touching the registry, so the original model is
still returned, unchanged, by a lookup of that key. -/
theorem register_duplicate_unchanged (models : Registry) (p n : Name)
    (m : Model) (d : List Cmd) (h : lookupReg models (p, n) = some m) :
    Model.register models p n d = .error .duplicateModel ∧
    Model.find models p n = .ok (m, models) := by
  constructor
  · simp [Model.register, h]
  · simp [Model.find, h]

/-- Witness for C8: re-registering the placeholder key on the one-entry
registry fails and leaves the original model retrievable. -/
theorem register_duplicate_unchanged_witness :
    Model.register regPH "PLACEHOLDER".data "PLACEHOLDER".data [] =
      .error .duplicateModel ∧
    Model.find regPH "PLACEHOLDER".data "PLACEHOLDER".data = .ok (phModel, regPH) :=
  register_duplicate_unchanged regPH "PLACEHOLDER".data "PLACEHOLDER".data
    phModel [] (by decide)

/-- The placeholder model with the behavior that marks the context as a
placeholder (the call available to it through the `NodeContext` API). -/
def markPhModel : Model :=
  Model.mk "PLACEHOLDER".data "PLACEHOLDER".data [Cmd.mark_placeholder]

/-- An interpreter state whose registry holds only the placeholder model. -/
def phState : InterpreterState := ⟨[(placeholderKey, markPhModel)], emptyServer, ∅⟩

/-- The behavior of the sample registered model: publish /x with format T. -/
def behPubX : List Cmd := [Cmd.pub "x".data "T".data]

/-- A registry with one registered model, for package p1 and node type t1. -/
def regT : Registry := [(("p1".data, "t1".data), Model.mk "p1".data "t1".data behPubX)]

/-- An interpreter state over `regT` with empty store and result set. -/
def stateT : InterpreterState := ⟨regT, emptyServer, ∅⟩

/-- C6 (the code contradicts it): loading a node whose (package, node-type)
key is unregistered runs the placeholder behavior — which calls
mark_placeholder — yet the produced summary has its placeholder flag false,
because `summarize` never passes the flag of the context to the summary
constructor; a node with a registered model also produces a summary with the
flag false, as the claim says. -/
theorem placeholder_flag_dropped :
    lookupReg phState.models ("foo".data, "bar".data) = none ∧
    (Interpreter.load phState "foo".data "bar".data "talker".data "/".data [] []).2
      = none ∧
    ((Interpreter.load phState "foo".data "bar".data "talker".data "/".data [] []).1).nodes.card
      = 1 ∧
    ((Interpreter.load phState "foo".data "bar".data "talker".data "/".data [] []).1).nodes.filter
        (fun s => s.placeholder = true) = ∅ ∧
    ((Interpreter.load stateT "p1".data "t1".data "talker".data "/".data [] []).1).nodes.card
      = 1 ∧
    ((Interpreter.load stateT "p1".data "t1".data "talker".data "/".data [] []).1).nodes.filter
        (fun s => s.placeholder = true) = ∅ := by
  decide

/-! ## Parameter-store preservation through loading -/

/-- `pub` leaves the parameter store of the context unchanged. -/
lemma pub_params {ctx c : NodeContext} {t f : Name} (h : ctx.pub t f = some c) :
    c.params = ctx.params := by
  rcases hr : resolveName ctx.name t with _ | m
  · rw [NodeContext.pub, NodeContext.resolve, hr] at h
    simp at h
  · rw [pub_eq f hr] at h
    cases h
    rfl

/-- `sub` leaves the parameter store of the context unchanged. -/
lemma sub_params {ctx c : NodeContext} {t f : Name} (h : ctx.sub t f = some c) :
    c.params = ctx.params := by
  rcases hr : resolveName ctx.name t with _ | m
  · rw [NodeContext.sub, NodeContext.resolve, hr] at h
    simp at h
  · rw [sub_eq f hr] at h
    cases h
    rfl

/-- `provide` leaves the parameter store of the context unchanged. -/
lemma provide_params {ctx c : NodeContext} {s f : Name}
    (h : ctx.provide s f = some c) : c.params = ctx.params := by
  rcases hr : resolveName ctx.name s with _ | m
  · rw [NodeContext.provide, NodeContext.resolve, hr] at h
    simp at h
  · rw [provide_eq f hr] at h
    cases h
    rfl

/-- `use` leaves the parameter store of the context unchanged. -/
lemma use_params {ctx c : NodeContext} {s f : Name}
    (h : ctx.use s f = some c) : c.params = ctx.params := by
  rcases hr : resolveName ctx.name s with _ | m
  · rw [NodeContext.use, NodeContext.resolve, hr] at h
    simp at h
  · rw [use_eq f hr] at h
    cases h
    rfl

/-- `read` leaves the parameter store of the context unchanged. -/
lemma read_params {ctx c : NodeContext} {p : Name} {d : Option ParamValue}
    {dyn : Bool} {r : Option ParamValue} (h : ctx.read p d dyn = some (c, r)) :
    c.params = ctx.params := by
  rcases hr : resolveName ctx.name p with _ | m
  · rw [NodeContext.read, NodeContext.resolve, hr] at h
    simp at h
  · rw [read_eq d dyn hr] at h
    cases h
    rfl

/-- `write` leaves the parameter store of the context unchanged. -/
lemma write_params {ctx c : NodeContext} {p : Name} {v : ParamValue}
    (h : ctx.write p v = some c) : c.params = ctx.params := by
  rcases hr : resolveName ctx.name p with _ | m
  · rw [NodeContext.write, NodeContext.resolve, hr] at h
    simp at h
  · rw [write_eq v hr] at h
    cases h
    rfl

/-- `action_server` leaves the parameter store of the context unchanged. -/
lemma action_server_params {ctx c : NodeContext} {ns f : Name}
    (h : ctx.action_server ns f = some c) : c.params = ctx.params := by
  rcases hr : resolveName ctx.name ns with _ | m
  · rw [NodeContext.action_server, NodeContext.resolve, hr] at h
    simp at h
  · obtain ⟨t, rfl⟩ := resolveName_isSlash hr
    rw [action_server_eq f hr] at h
    cases h
    rfl

/-- `action_client` leaves the parameter store of the context unchanged. -/
lemma action_client_params {ctx c : NodeContext} {ns f : Name}
    (h : ctx.action_client ns f = some c) : c.params = ctx.params := by
  rcases hr : resolveName ctx.name ns with _ | m
  · rw [NodeContext.action_client, NodeContext.resolve, hr] at h
    simp at h
  · obtain ⟨t, rfl⟩ := resolveName_isSlash hr
    rw [action_client_eq f hr] at h
    cases h
    rfl

/-- Every effect command leaves the parameter store unchanged: notably,
`write` records the name without storing the value. -/
lemma runCmd_params {ctx c2 : NodeContext} (cmd : Cmd)
    (h : ctx.runCmd cmd = .ok c2) : c2.params = ctx.params := by
  cases cmd <;> simp only [NodeContext.runCmd] at h
  case pub t f =>
    split at h
    · cases h
      exact pub_params (by assumption)
    · cases h
  case sub t f =>
    split at h
    · cases h
      exact sub_params (by assumption)
    · cases h
  case provide s f =>
    split at h
    · cases h
      exact provide_params (by assumption)
    · cases h
  case use s f =>
    split at h
    · cases h
      exact use_params (by assumption)
    · cases h
  case read p d dyn =>
    split at h
    · cases h
      exact read_params (by assumption)
    · cases h
  case write p v =>
    split at h
    · cases h
      exact write_params (by assumption)
    · cases h
  case action_server ns f =>
    split at h
    · cases h
      exact action_server_params (by assumption)
    · cases h
  case action_client ns f =>
    split at h
    · cases h
      exact action_client_params (by assumption)
    · cases h
  case mark_nodelet =>
    cases h
    rfl
  case mark_placeholder =>
    cases h
    rfl
  case fail msg =>
    cases h

/-- A behavior run leaves the parameter store unchanged, whether or not it
fails part-way. -/
lemma evalCmds_params : ∀ (cmds : List Cmd) (ctx : NodeContext),
    ((evalCmds ctx cmds).1).params = ctx.params
  | [], _ => rfl
  | c :: rest, ctx => by
      rw [evalCmds]
      rcases hr : ctx.runCmd c with e | c2
      · simp only [hr]
      · simp only [hr]
        rw [evalCmds_params rest c2, runCmd_params c hr]

/-- Construction stores the given parameter server in the context. -/
lemma mkNodeContext_params {nm nsp kind pkg args : Name}
    {rem : List (Name × Name)} {ps : ParameterServer} {ctx : NodeContext}
    (h : mkNodeContext nm nsp kind pkg args rem ps = some ctx) :
    ctx.params = ps := by
  rw [mkNodeContext] at h
  rcases hr : resolveRemapInto nm [] rem with _ | tbl
  · rw [hr] at h
    simp at h
  · rw [hr] at h
    simp only [Option.pure_def, Option.bind_eq_bind, Option.some_bind,
      Option.some.injEq] at h
    rw [← h]

/-- The ordinary load path leaves the session parameter store unchanged. -/
lemma loadOrdinary_params (g : InterpreterState) (pkg nodetype name namespace_ : Name)
    (rem : List (Name × Name)) (args : Name) :
    ((Interpreter.loadOrdinary g pkg nodetype name namespace_ rem args).1).params
      = g.params := by
  rw [Interpreter.loadOrdinary]
  rcases hf : Model.find g.models pkg nodetype with e | mr
  · simp only [hf]
  · obtain ⟨model, models2⟩ := mr
    simp only [hf]
    rcases hmk : mkNodeContext name namespace_ nodetype pkg args rem g.params
      with _ | ctx
    · simp only [hmk]
    · simp only [hmk]
      have hctx : ctx.params = g.params := mkNodeContext_params hmk
      rcases he : Model.eval model ctx with ⟨ctx2, oe⟩
      have hc2 : ctx2.params = ctx.params := by
        have h3 := evalCmds_params model.definition ctx
        rw [Model.eval] at he
        rw [he] at h3
        exact h3
      rcases oe with _ | e
      · rcases hs : ctx2.summarize with _ | summary
        · simp only [he, hs]
          exact hc2.trans hctx
        · simp only [he, hs]
          exact hc2.trans hctx
      · simp only [he]
        exact hc2.trans hctx

/-- The nodelet load path leaves the session parameter store unchanged. -/
lemma load_nodelet_params (g : InterpreterState) (pkg nodetype name namespace_ : Name)
    (rem : List (Name × Name)) (mgr : Option Name) :
    ((Interpreter.load_nodelet g pkg nodetype name namespace_ rem mgr).1).params
      = g.params := by
  rw [Interpreter.load_nodelet]
  split
  · rfl
  · exact loadOrdinary_params g pkg nodetype name namespace_ rem []

/-- `Interpreter.load` leaves the session parameter store unchanged on every
branch. -/
lemma load_params (g : InterpreterState) (pkg nodetype name namespace_ : Name)
    (rem : List (Name × Name)) (args : Name) :
    ((Interpreter.load g pkg nodetype name namespace_ rem args).1).params
      = g.params := by
  rw [Interpreter.load]
  split
  · split
    · rfl
    · split
      · exact load_nodelet_params g _ _ name namespace_ rem none
      · split
        · exact load_nodelet_params g _ _ name namespace_ rem _
        · rfl
  · exact loadOrdinary_params g pkg nodetype name namespace_ rem _

/-- The per-descriptor launch step leaves the parameter store unchanged. -/
lemma loadNode_params (g : InterpreterState) (nd : NodeDescription) :
    ((Interpreter.loadNode g nd).1).params = g.params :=
  load_params g nd.package nd.typ nd.name nd.namespace_ _ _

/-- The node loop of `launch` leaves the parameter store unchanged whether it
completes or aborts. -/
lemma launchNodes_params : ∀ (l : List NodeDescription) (g : InterpreterState),
    ((Interpreter.launchNodes g l).1).params = g.params
  | [], _ => rfl
  | nd :: rest, g => by
      rw [Interpreter.launchNodes]
      rcases h : Interpreter.loadNode g nd with ⟨g2, oe⟩
      have hg2 : g2.params = g.params := by
        have h3 := loadNode_params g nd
        rw [h] at h3
        exact h3
      rcases oe with _ | e
      · simp only [h]
        exact (launchNodes_params rest g2).trans hg2
      · simp only [h]
        exact hg2

/-- Splitting the node loop at a successful run of its first part. -/
lemma launchNodes_append :
    ∀ (pre : List NodeDescription) (g s2 : InterpreterState)
      (rest : List NodeDescription),
      Interpreter.launchNodes g pre = (s2, none) →
      Interpreter.launchNodes g (pre ++ rest) = Interpreter.launchNodes s2 rest
  | [], g, s2, rest, h => by
      rw [Interpreter.launchNodes] at h
      cases h
      rfl
  | nd :: pre, g, s2, rest, h => by
      rw [Interpreter.launchNodes] at h
      rw [List.cons_append, Interpreter.launchNodes]
      rcases hl : Interpreter.loadNode g nd with ⟨g2, oe⟩
      rcases oe with _ | e
      · rw [hl] at h
        simp only [hl]
        exact launchNodes_append pre g2 s2 rest h
      · rw [hl] at h
        simp at h

/-- C7: during `launch`, nodes are loaded in configuration order; if loading
one node fails, that failure is re-raised as the result of the launch and the
remaining node descriptors are never loaded (the result is the same whatever
follows the failing node), while the parameters seeded from the configuration
before the node loop remain seeded in the store. -/
theorem launch_fail_fast (g : InterpreterState) (cfg : LaunchConfig)
    (pre post : List NodeDescription) (bad : NodeDescription)
    (s2 sb : InterpreterState) (e : Err)
    (hnodes : cfg.nodes = pre ++ bad :: post)
    (hpre : Interpreter.launchNodes
      { g with params := seedParams g.params cfg.params } pre = (s2, none))
    (hbad : Interpreter.loadNode s2 bad = (sb, some e)) :
    Interpreter.launch g cfg = (sb, some e) ∧
    (∀ post2 : List NodeDescription,
      Interpreter.launch g ⟨cfg.params, pre ++ bad :: post2⟩ = (sb, some e)) ∧
    sb.params = seedParams g.params cfg.params := by
  have habort : ∀ post2 : List NodeDescription,
      Interpreter.launchNodes { g with params := seedParams g.params cfg.params }
        (pre ++ bad :: post2) = (sb, some e) := by
    intro post2
    rw [launchNodes_append pre _ s2 _ hpre, Interpreter.launchNodes]
    simp only [hbad]
  refine ⟨?_, fun post2 => habort post2, ?_⟩
  · rw [Interpreter.launch, hnodes]
    exact habort post
  · have hb : sb.params = s2.params := by
      have h3 := loadNode_params s2 bad
      rw [hbad] at h3
      exact h3
    have hs : s2.params = seedParams g.params cfg.params := by
      have h3 := launchNodes_params pre
        { g with params := seedParams g.params cfg.params }
      rw [hpre] at h3
      exact h3
    rw [hb, hs]

/-- The node descriptor of the registered sample model. -/
def nodeGood : NodeDescription :=
  ⟨"talker".data, "p1".data, "t1".data, "/".data, none, []⟩

/-- A node descriptor whose (package, node-type) key is absent from `regT`,
which also holds no placeholder entry, so loading it fails. -/
def nodeBad : NodeDescription :=
  ⟨"oops".data, "p2".data, "t2".data, "/".data, none, []⟩

/-- A configuration with one parameter and a failing node between two good
ones. -/
def cfgT : LaunchConfig :=
  ⟨[("/seed".data, ParamValue.numVal 1)], [nodeGood, nodeBad, nodeGood]⟩

/-- The state after seeding and loading the first good node of `cfgT`. -/
def sGood : InterpreterState :=
  (Interpreter.launchNodes { stateT with params := seedParams stateT.params cfgT.params }
    [nodeGood]).1

/-- The state left behind by the failing load of `nodeBad`. -/
def sBad : InterpreterState := (Interpreter.loadNode sGood nodeBad).1

/-- Witness for C7 on the concrete configuration: the launch aborts at the
failing second node with the model-not-found error, whatever follows it, and
the seeded parameter survives. -/
theorem launch_fail_fast_witness :
    Interpreter.launch stateT cfgT =
      (sBad, some (Err.modelNotFound "p2".data "t2".data)) ∧
    (∀ post2 : List NodeDescription,
      Interpreter.launch stateT ⟨cfgT.params, [nodeGood] ++ nodeBad :: post2⟩ =
        (sBad, some (Err.modelNotFound "p2".data "t2".data))) ∧
    sBad.params = seedParams stateT.params cfgT.params :=
  launch_fail_fast stateT cfgT [nodeGood] [nodeGood] nodeBad sGood sBad
    (Err.modelNotFound "p2".data "t2".data) (by decide) (by decide) (by decide)

/-! ## Idempotence of the effect declarations -/

/-- Re-inserting two elements already at the head of a finite set changes
nothing. -/
lemma insert_idem_two {α : Type} [DecidableEq α] (a b : α) (s : Finset α) :
    insert a (insert b (insert a (insert b s))) = insert a (insert b s) := by
  ext x
  simp only [Finset.mem_insert]
  tauto

/-- Re-inserting three elements already at the head of a finite set changes
nothing. -/
lemma insert_idem_three {α : Type} [DecidableEq α] (a b c : α) (s : Finset α) :
    insert a (insert b (insert c (insert a (insert b (insert c s))))) =
      insert a (insert b (insert c s)) := by
  ext x
  simp only [Finset.mem_insert]
  tauto

/-- The subscription set of a summary is that of the summarized context. -/
lemma summarize_subs {ctx : NodeContext} {s : NodeSummary}
    (h : ctx.summarize = some s) : s.subs = ctx.subs := by
  rw [NodeContext.summarize] at h
  rcases hf : ctx.fullname with _ | fn
  · rw [hf] at h
    simp at h
  · rw [hf] at h
    simp only [Option.pure_def, Option.bind_eq_bind, Option.some_bind,
      Option.some.injEq] at h
    rw [← h]

/-- C9: every effect declaration is idempotent — declaring the same arguments
twice on one context yields the same context as declaring them once, for each
of the eight interaction-recording operations — and subscribing twice on a
fresh context leaves exactly one entry in the subscription set of the
finalized summary. -/
theorem effect_declarations_idempotent (ctx c2 : NodeContext) :
    (∀ t f, ctx.sub t f = some c2 → c2.sub t f = some c2) ∧
    (∀ t f, ctx.pub t f = some c2 → c2.pub t f = some c2) ∧
    (∀ s f, ctx.provide s f = some c2 → c2.provide s f = some c2) ∧
    (∀ s f, ctx.use s f = some c2 → c2.use s f = some c2) ∧
    (∀ p d dyn r, ctx.read p d dyn = some (c2, r) → c2.read p d dyn = some (c2, r)) ∧
    (∀ p v, ctx.write p v = some c2 → c2.write p v = some c2) ∧
    (∀ ns f, ctx.action_server ns f = some c2 → c2.action_server ns f = some c2) ∧
    (∀ ns f, ctx.action_client ns f = some c2 → c2.action_client ns f = some c2) ∧
    (∀ t f c3 s, ctx.subs = ∅ → ctx.sub t f = some c2 → c2.sub t f = some c3 →
      c3.summarize = some s → s.subs.card = 1) := by
  have hsub : ∀ t f, ctx.sub t f = some c2 → c2.sub t f = some c2 := by
    intro t f h
    rcases hr : resolveName ctx.name t with _ | m
    · rw [NodeContext.sub, NodeContext.resolve, hr] at h
      simp at h
    · rw [sub_eq f hr] at h
      cases h
      refine Eq.trans (sub_eq f hr) ?_
      simp [NodeContext.remap, Finset.insert_idem]
  refine ⟨hsub, ?_, ?_, ?_, ?_, ?_, ?_, ?_, ?_⟩
  · intro t f h
    rcases hr : resolveName ctx.name t with _ | m
    · rw [NodeContext.pub, NodeContext.resolve, hr] at h
      simp at h
    · rw [pub_eq f hr] at h
      cases h
      refine Eq.trans (pub_eq f hr) ?_
      simp [NodeContext.remap, Finset.insert_idem]
  · intro s f h
    rcases hr : resolveName ctx.name s with _ | m
    · rw [NodeContext.provide, NodeContext.resolve, hr] at h
      simp at h
    · rw [provide_eq f hr] at h
      cases h
      refine Eq.trans (provide_eq f hr) ?_
      simp [NodeContext.remap, Finset.insert_idem]
  · intro s f h
    rcases hr : resolveName ctx.name s with _ | m
    · rw [NodeContext.use, NodeContext.resolve, hr] at h
      simp at h
    · rw [use_eq f hr] at h
      cases h
      refine Eq.trans (use_eq f hr) ?_
      simp [NodeContext.remap, Finset.insert_idem]
  · intro p d dyn r h
    rcases hr : resolveName ctx.name p with _ | m
    · rw [NodeContext.read, NodeContext.resolve, hr] at h
      simp at h
    · rw [read_eq d dyn hr] at h
      cases h
      refine Eq.trans (read_eq d dyn hr) ?_
      simp [Finset.insert_idem]
  · intro p v h
    rcases hr : resolveName ctx.name p with _ | m
    · rw [NodeContext.write, NodeContext.resolve, hr] at h
      simp at h
    · rw [write_eq v hr] at h
      cases h
      refine Eq.trans (write_eq v hr) ?_
      simp [Finset.insert_idem]
  · intro ns f h
    rcases hr : resolveName ctx.name ns with _ | m
    · rw [NodeContext.action_server, NodeContext.resolve, hr] at h
      simp at h
    · obtain ⟨t, rfl⟩ := resolveName_isSlash hr
      rw [action_server_eq f hr] at h
      cases h
      refine Eq.trans (action_server_eq f hr) ?_
      simp only [NodeContext.remap]
      rw [Finset.insert_idem, insert_idem_two, insert_idem_three]
  · intro ns f h
    rcases hr : resolveName ctx.name ns with _ | m
    · rw [NodeContext.action_client, NodeContext.resolve, hr] at h
      simp at h
    · obtain ⟨t, rfl⟩ := resolveName_isSlash hr
      rw [action_client_eq f hr] at h
      cases h
      refine Eq.trans (action_client_eq f hr) ?_
      simp only [NodeContext.remap]
      rw [Finset.insert_idem, insert_idem_two, insert_idem_three]
  · intro t f c3 s hempty h1 h2 hs
    have h3 : c2.sub t f = some c2 := hsub t f h1
    have hc3 : c3 = c2 := by
      rw [h3] at h2
      cases h2
      rfl
    subst hc3
    rcases hr : resolveName ctx.name t with _ | m
    · rw [NodeContext.sub, NodeContext.resolve, hr] at h1
      simp at h1
    · rw [sub_eq f hr] at h1
      cases h1
      rw [summarize_subs hs, hempty]
      simp

/-- The context after one subscription to x with format T. -/
def subOnce : NodeContext := { witnessCtx with subs := {("/x".data, "T".data)} }

/-- Witness for C9: a second identical subscription on the concrete context
returns it unchanged. -/
theorem effect_declarations_idempotent_witness :
    subOnce.sub "x".data "T".data = some subOnce :=
  (effect_declarations_idempotent witnessCtx subOnce).1 "x".data "T".data
    (by decide)

/-! ## Full qualification invariant -/

/-- A name is fully qualified when its first character is the root separator. -/
abbrev isFQ (n : Name) : Prop := n.head? = some '/'

/-- Every key and value of a remapping table is fully qualified. -/
abbrev TableFQ (l : List (Name × Name)) : Prop :=
  ∀ p ∈ l, isFQ p.1 ∧ isFQ p.2

/-- Every name recorded in any interaction set of the context, and both sides
of every remapping entry, are fully qualified. -/
abbrev CtxFQ (ctx : NodeContext) : Prop :=
  (∀ p ∈ ctx.pubs, isFQ p.1) ∧ (∀ p ∈ ctx.subs, isFQ p.1) ∧
  (∀ p ∈ ctx.provides, isFQ p.1) ∧ (∀ p ∈ ctx.uses, isFQ p.1) ∧
  (∀ p ∈ ctx.action_servers, isFQ p.1) ∧ (∀ p ∈ ctx.action_clients, isFQ p.1) ∧
  (∀ p ∈ ctx.reads, isFQ p.1) ∧ (∀ n ∈ ctx.writes, isFQ n) ∧
  TableFQ ctx.remappings

/-- A name headed by the separator is fully qualified. -/
lemma isFQ_cons (t : Name) : isFQ ('/' :: t) := rfl

/-- Resolution only produces fully-qualified names. -/
lemma resolveName_FQ {nm n m : Name} (h : resolveName nm n = some m) : isFQ m := by
  obtain ⟨t, rfl⟩ := resolveName_isSlash h
  rfl

/-- A successful association lookup returns the value of some stored entry. -/
lemma lookupAssoc_mem {α : Type} : ∀ {l : List (Name × α)} {k : Name} {v : α},
    lookupAssoc l k = some v → ∃ p ∈ l, p.2 = v := by
  intro l
  induction l with
  | nil => intro k v h; simp [lookupAssoc] at h
  | cons hd tl ih =>
      intro k v h
      obtain ⟨k2, v2⟩ := hd
      rw [lookupAssoc] at h
      split at h
      · injection h with h2
        exact ⟨(k2, v2), List.mem_cons_self _ _, h2⟩
      · obtain ⟨p, hp, hv⟩ := ih h
        exact ⟨p, List.mem_cons_of_mem _ hp, hv⟩

/-- Remapping a fully-qualified name through a fully-qualified table yields a
fully-qualified name. -/
lemma remap_FQ {ctx : NodeContext} (ht : TableFQ ctx.remappings) {n : Name}
    (hn : isFQ n) : isFQ (ctx.remap n) := by
  rw [NodeContext.remap]
  rcases hl : lookupAssoc ctx.remappings n with _ | v
  · exact hn
  · obtain ⟨p, hp, hv⟩ := lookupAssoc_mem hl
    rw [← hv]
    exact (ht p hp).2

/-- Membership after an association overwrite-or-append. -/
lemma setAssoc_mem {α : Type} : ∀ {l : List (Name × α)} {k : Name} {v : α}
    {p : Name × α}, p ∈ setAssoc l k v → p ∈ l ∨ p = (k, v) := by
  intro l
  induction l with
  | nil =>
      intro k v p h
      simp [setAssoc] at h
      exact Or.inr h
  | cons hd tl ih =>
      intro k v p h
      obtain ⟨k2, v2⟩ := hd
      rw [setAssoc] at h
      split at h
      · rcases List.mem_cons.mp h with h1 | h1
        · exact Or.inr h1
        · exact Or.inl (List.mem_cons_of_mem _ h1)
      · rcases List.mem_cons.mp h with h1 | h1
        · exact Or.inl (h1 ▸ List.mem_cons_self _ _)
        · rcases ih h1 with h2 | h2
          · exact Or.inl (List.mem_cons_of_mem _ h2)
          · exact Or.inr h2

/-- Resolving the raw remapping pairs produces a fully-qualified table. -/
lemma resolveRemapInto_FQ {nm : Name} : ∀ (raw acc : List (Name × Name))
    {tbl : List (Name × Name)}, TableFQ acc →
    resolveRemapInto nm acc raw = some tbl → TableFQ tbl
  | [], acc, tbl, hacc, h => by
      rw [resolveRemapInto] at h
      cases h
      exact hacc
  | (x, y) :: rest, acc, tbl, hacc, h => by
      rw [resolveRemapInto] at h
      rcases hx : resolveName nm x with _ | x2
      · rw [hx] at h
        simp at h
      · rw [hx] at h
        rcases hy : resolveName nm y with _ | y2
        · rw [hy] at h
          simp at h
        · rw [hy] at h
          simp only [Option.pure_def, Option.bind_eq_bind, Option.some_bind] at h
          refine resolveRemapInto_FQ rest (setAssoc acc x2 y2) ?_ h
          intro p hp
          rcases setAssoc_mem hp with h1 | h1
          · exact hacc p h1
          · rw [h1]
            exact ⟨resolveName_FQ hx, resolveName_FQ hy⟩

/-- Construction establishes the qualification invariant. -/
lemma CtxFQ_mk {nm nsp kind pkg args : Name} {rem : List (Name × Name)}
    {ps : ParameterServer} {ctx : NodeContext}
    (h : mkNodeContext nm nsp kind pkg args rem ps = some ctx) : CtxFQ ctx := by
  rw [mkNodeContext] at h
  rcases hr : resolveRemapInto nm [] rem with _ | tbl
  · rw [hr] at h
    simp at h
  · rw [hr] at h
    simp only [Option.pure_def, Option.bind_eq_bind, Option.some_bind,
      Option.some.injEq] at h
    cases h
    refine ⟨?_, ?_, ?_, ?_, ?_, ?_, ?_, ?_, ?_⟩ <;>
      first
        | exact resolveRemapInto_FQ rem [] (by intro p hp; simp at hp) hr
        | intro p hp; simp at hp

/-- `pub` preserves the qualification invariant. -/
lemma CtxFQ_pub {ctx c : NodeContext} (hin : CtxFQ ctx) {t f : Name}
    (h : ctx.pub t f = some c) : CtxFQ c := by
  rcases hr : resolveName ctx.name t with _ | m
  · rw [NodeContext.pub, NodeContext.resolve, hr] at h
    simp at h
  · rw [pub_eq f hr] at h
    cases h
    obtain ⟨h1, h2, h3, h4, h5, h6, h7, h8, h9⟩ := hin
    refine ⟨?_, h2, h3, h4, h5, h6, h7, h8, h9⟩
    intro p hp
    rcases Finset.mem_insert.mp hp with h0 | h0
    · rw [h0]
      exact remap_FQ h9 (resolveName_FQ hr)
    · exact h1 p h0

/-- `sub` preserves the qualification invariant. -/
lemma CtxFQ_sub {ctx c : NodeContext} (hin : CtxFQ ctx) {t f : Name}
    (h : ctx.sub t f = some c) : CtxFQ c := by
  rcases hr : resolveName ctx.name t with _ | m
  · rw [NodeContext.sub, NodeContext.resolve, hr] at h
    simp at h
  · rw [sub_eq f hr] at h
    cases h
    obtain ⟨h1, h2, h3, h4, h5, h6, h7, h8, h9⟩ := hin
    refine ⟨h1, ?_, h3, h4, h5, h6, h7, h8, h9⟩
    intro p hp
    rcases Finset.mem_insert.mp hp with h0 | h0
    · rw [h0]
      exact remap_FQ h9 (resolveName_FQ hr)
    · exact h2 p h0

/-- `provide` preserves the qualification invariant. -/
lemma CtxFQ_provide {ctx c : NodeContext} (hin : CtxFQ ctx) {s f : Name}
    (h : ctx.provide s f = some c) : CtxFQ c := by
  rcases hr : resolveName ctx.name s with _ | m
  · rw [NodeContext.provide, NodeContext.resolve, hr] at h
    simp at h
  · rw [provide_eq f hr] at h
    cases h
    obtain ⟨h1, h2, h3, h4, h5, h6, h7, h8, h9⟩ := hin
    refine ⟨h1, h2, ?_, h4, h5, h6, h7, h8, h9⟩
    intro p hp
    rcases Finset.mem_insert.mp hp with h0 | h0
    · rw [h0]
      exact remap_FQ h9 (resolveName_FQ hr)
    · exact h3 p h0

/-- `use` preserves the qualification invariant. -/
lemma CtxFQ_use {ctx c : NodeContext} (hin : CtxFQ ctx) {s f : Name}
    (h : ctx.use s f = some c) : CtxFQ c := by
  rcases hr : resolveName ctx.name s with _ | m
  · rw [NodeContext.use, NodeContext.resolve, hr] at h
    simp at h
  · rw [use_eq f hr] at h
    cases h
    obtain ⟨h1, h2, h3, h4, h5, h6, h7, h8, h9⟩ := hin
    refine ⟨h1, h2, h3, ?_, h5, h6, h7, h8, h9⟩
    intro p hp
    rcases Finset.mem_insert.mp hp with h0 | h0
    · rw [h0]
      exact remap_FQ h9 (resolveName_FQ hr)
    · exact h4 p h0

/-- `read` preserves the qualification invariant. -/
lemma CtxFQ_read {ctx c : NodeContext} (hin : CtxFQ ctx) {p : Name}
    {d : Option ParamValue} {dyn : Bool} {r : Option ParamValue}
    (h : ctx.read p d dyn = some (c, r)) : CtxFQ c := by
  rcases hr : resolveName ctx.name p with _ | m
  · rw [NodeContext.read, NodeContext.resolve, hr] at h
    simp at h
  · rw [read_eq d dyn hr] at h
    cases h
    obtain ⟨h1, h2, h3, h4, h5, h6, h7, h8, h9⟩ := hin
    refine ⟨h1, h2, h3, h4, h5, h6, ?_, h8, h9⟩
    intro q hq
    rcases Finset.mem_insert.mp hq with h0 | h0
    · rw [h0]
      exact resolveName_FQ hr
    · exact h7 q h0

/-- `write` preserves the qualification invariant. -/
lemma CtxFQ_write {ctx c : NodeContext} (hin : CtxFQ ctx) {p : Name}
    {v : ParamValue} (h : ctx.write p v = some c) : CtxFQ c := by
  rcases hr : resolveName ctx.name p with _ | m
  · rw [NodeContext.write, NodeContext.resolve, hr] at h
    simp at h
  · rw [write_eq v hr] at h
    cases h
    obtain ⟨h1, h2, h3, h4, h5, h6, h7, h8, h9⟩ := hin
    refine ⟨h1, h2, h3, h4, h5, h6, h7, ?_, h9⟩
    intro q hq
    rcases Finset.mem_insert.mp hq with h0 | h0
    · rw [h0]
      exact resolveName_FQ hr
    · exact h8 q h0

/-- `action_server` preserves the qualification invariant. -/
lemma CtxFQ_action_server {ctx c : NodeContext} (hin : CtxFQ ctx) {ns f : Name}
    (h : ctx.action_server ns f = some c) : CtxFQ c := by
  rcases hr : resolveName ctx.name ns with _ | m
  · rw [NodeContext.action_server, NodeContext.resolve, hr] at h
    simp at h
  · obtain ⟨t, rfl⟩ := resolveName_isSlash hr
    rw [action_server_eq f hr] at h
    cases h
    obtain ⟨h1, h2, h3, h4, h5, h6, h7, h8, h9⟩ := hin
    refine ⟨?_, ?_, h3, h4, ?_, h6, h7, h8, h9⟩
    · intro p hp
      simp only [Finset.mem_insert] at hp
      rcases hp with h0 | h0 | h0 | h0
      · rw [h0]
        exact remap_FQ h9 (isFQ_cons _)
      · rw [h0]
        exact remap_FQ h9 (isFQ_cons _)
      · rw [h0]
        exact remap_FQ h9 (isFQ_cons _)
      · exact h1 p h0
    · intro p hp
      simp only [Finset.mem_insert] at hp
      rcases hp with h0 | h0 | h0
      · rw [h0]
        exact remap_FQ h9 (isFQ_cons _)
      · rw [h0]
        exact remap_FQ h9 (isFQ_cons _)
      · exact h2 p h0
    · intro p hp
      rcases Finset.mem_insert.mp hp with h0 | h0
      · rw [h0]
        exact isFQ_cons t
      · exact h5 p h0

/-- `action_client` preserves the qualification invariant. -/
lemma CtxFQ_action_client {ctx c : NodeContext} (hin : CtxFQ ctx) {ns f : Name}
    (h : ctx.action_client ns f = some c) : CtxFQ c := by
  rcases hr : resolveName ctx.name ns with _ | m
  · rw [NodeContext.action_client, NodeContext.resolve, hr] at h
    simp at h
  · obtain ⟨t, rfl⟩ := resolveName_isSlash hr
    rw [action_client_eq f hr] at h
    cases h
    obtain ⟨h1, h2, h3, h4, h5, h6, h7, h8, h9⟩ := hin
    refine ⟨?_, ?_, h3, h4, h5, ?_, h7, h8, h9⟩
    · intro p hp
      simp only [Finset.mem_insert] at hp
      rcases hp with h0 | h0 | h0
      · rw [h0]
        exact remap_FQ h9 (isFQ_cons _)
      · rw [h0]
        exact remap_FQ h9 (isFQ_cons _)
      · exact h1 p h0
    · intro p hp
      simp only [Finset.mem_insert] at hp
      rcases hp with h0 | h0 | h0 | h0
      · rw [h0]
        exact remap_FQ h9 (isFQ_cons _)
      · rw [h0]
        exact remap_FQ h9 (isFQ_cons _)
      · rw [h0]
        exact remap_FQ h9 (isFQ_cons _)
      · exact h2 p h0
    · intro p hp
      rcases Finset.mem_insert.mp hp with h0 | h0
      · rw [h0]
        exact isFQ_cons t
      · exact h6 p h0

/-- C10: every name stored by the effect declarations is fully qualified: a
freshly constructed context satisfies the invariant (its remapping table
resolved on both sides), and each of the eight recording operations preserves
it. -/
theorem recorded_names_fully_qualified :
    (∀ (nm nsp kind pkg args : Name) (rem : List (Name × Name))
      (ps : ParameterServer) (ctx : NodeContext),
      mkNodeContext nm nsp kind pkg args rem ps = some ctx → CtxFQ ctx) ∧
    (∀ ctx c : NodeContext, ∀ t f : Name,
      CtxFQ ctx → ctx.pub t f = some c → CtxFQ c) ∧
    (∀ ctx c : NodeContext, ∀ t f : Name,
      CtxFQ ctx → ctx.sub t f = some c → CtxFQ c) ∧
    (∀ ctx c : NodeContext, ∀ s f : Name,
      CtxFQ ctx → ctx.provide s f = some c → CtxFQ c) ∧
    (∀ ctx c : NodeContext, ∀ s f : Name,
      CtxFQ ctx → ctx.use s f = some c → CtxFQ c) ∧
    (∀ ctx c : NodeContext, ∀ p : Name, ∀ d r : Option ParamValue, ∀ dyn : Bool,
      CtxFQ ctx → ctx.read p d dyn = some (c, r) → CtxFQ c) ∧
    (∀ ctx c : NodeContext, ∀ p : Name, ∀ v : ParamValue,
      CtxFQ ctx → ctx.write p v = some c → CtxFQ c) ∧
    (∀ ctx c : NodeContext, ∀ ns f : Name,
      CtxFQ ctx → ctx.action_server ns f = some c → CtxFQ c) ∧
    (∀ ctx c : NodeContext, ∀ ns f : Name,
      CtxFQ ctx → ctx.action_client ns f = some c → CtxFQ c) :=
  ⟨fun _ _ _ _ _ _ _ _ h => CtxFQ_mk h,
   fun _ _ _ _ hin h => CtxFQ_pub hin h,
   fun _ _ _ _ hin h => CtxFQ_sub hin h,
   fun _ _ _ _ hin h => CtxFQ_provide hin h,
   fun _ _ _ _ hin h => CtxFQ_use hin h,
   fun _ _ _ _ _ _ hin h => CtxFQ_read hin h,
   fun _ _ _ _ hin h => CtxFQ_write hin h,
   fun _ _ _ _ hin h => CtxFQ_action_server hin h,
   fun _ _ _ _ hin h => CtxFQ_action_client hin h⟩

/-- Witness for C10: the constructed remapped sample context satisfies the
invariant, and so does the result of a publish through the remapping. -/
theorem recorded_names_fully_qualified_witness :
    CtxFQ remapCtx ∧
    CtxFQ { remapCtx with pubs := {("/b".data, "T".data)} } :=
  ⟨recorded_names_fully_qualified.1 "talker".data "/".data "t1".data "p1".data
      [] [("a".data, "b".data)] emptyServer remapCtx remapCtx_mk,
   recorded_names_fully_qualified.2.1 remapCtx
      { remapCtx with pubs := {("/b".data, "T".data)} } "a".data "T".data
      (by decide) (by decide)⟩
